import Mathlib

/-!
Shallow embedding of `cne/singularity_index.py` (rivamap).

The Python module has two parts:
* class `SingularityIndexFilters` — builds a fixed bank of Gaussian /
  Gaussian-derivative kernels from `(minScale, nrScales)`;
* function `applyMMSI` — applies the bank to a 2-D image over a geometric
  sequence of scales and aggregates the per-scale responses.

Modelling choices:
* Python floats are modelled by exact arithmetic: parameters (`minScale`) by
  `ℚ`, pixel values by `ℝ`.  `int(x)` (truncation toward zero) is `pyInt`.
* Images and 2-D kernels are `Mat`: explicit row/column counts plus a total
  pixel function `ℕ → ℕ → ℝ` (values outside the extent are irrelevant to the
  modelled operations, which only sample in-range indices or use explicit
  zero padding).
* The external collaborators (`cv2.getGaussianKernel`, `cv2.sepFilter2D` with
  `BORDER_REFLECT_101`, `scipy.signal.fftconvolve` with `mode='same'`,
  `cv2.resize` with `INTER_CUBIC` / `INTER_NEAREST`, `np.arctan2`) are embedded
  by their documented real-valued semantics.
* Python runtime failures of `applyMMSI` (the explicit `raise ValueError` for
  more than two dimensions, the tuple-unpack `ValueError` for fewer than two,
  the unbound-local `NameError` reached when the scale loop never runs, and
  the `cv2.error` raised by `cv2.resize` when a requested target dimension is
  zero) are an explicit error type `PyErr`; `applyMMSI` returns `Except`.
* numpy binding semantics are modelled where observable: at scale 0 the
  statements `psi_max = psi_scale; psi_sum = psi_scale` bind both names to
  one array, and scale 1's in-place `psi_max[idx] = psi_scale[idx]` mutates
  that shared array before `psi_sum = psi_sum + psi_scale` reads it (tracked
  by `Agg.sumAliased`).
-/

/-- Python `int(x)`: truncation toward zero on an exact rational. -/
def pyInt (q : ℚ) : ℤ := if 0 ≤ q then ⌊q⌋ else -⌊-q⌋

/-- A 1-D convolution kernel: a length and a total value function
(`cv2.getGaussianKernel` returns a column vector; row/column orientation is
irrelevant once `sepFilter2D` flattens it). -/
structure Kernel1D where
  size : ℕ
  val : ℕ → ℝ

/-- A 2-D real array (image or 2-D kernel): explicit extent plus a total
pixel function (row, column). -/
structure Mat where
  rows : ℕ
  cols : ℕ
  pix : ℕ → ℕ → ℝ

/-- Embedding of `cv2.getGaussianKernel ksize sigma` for `sigma > 0` (the only regime the
filter bank uses for a positive `minScale`): the sampled Gaussian
`exp(-(i - (n-1)/2)² / (2σ²))`, normalized so the entries sum to 1. -/
noncomputable def getGaussianKernel (n : ℕ) (sigma : ℚ) : Kernel1D where
  size := n
  val := fun i =>
    Real.exp (-(((i : ℝ) - ((n : ℝ) - 1) / 2) ^ 2) / (2 * (sigma : ℝ) ^ 2)) /
      ∑ j ∈ Finset.range n,
        Real.exp (-(((j : ℝ) - ((n : ℝ) - 1) / 2) ^ 2) / (2 * (sigma : ℝ) ^ 2))

/-- The local `ksized = int(sigmad*3)` with `sigmad = 5*minScale`: half size of the
debiasing kernel. -/
def ksized (minScale : ℚ) : ℤ := pyInt (5 * minScale * 3)

/-- The local `ksize2 = int(sigma2*3) + 1` with `sigma2 = minScale`: half size of the
second-derivative / base Gaussian kernels. -/
def ksize2 (minScale : ℚ) : ℤ := pyInt (minScale * 3) + 1

/-- The local `ksize1 = int(sigma1*3) + 1` with `sigma1 = minScale*1.7754`: half size of
the first-derivative kernels. -/
def ksize1 (minScale : ℚ) : ℤ := pyInt (minScale * (17754 / 10000) * 3) + 1

/-- The filter bank built by `SingularityIndexFilters.__init__` /
`_createFilters`: stored parameters plus the kernels. -/
structure SingularityIndexFilters where
  minScale : ℚ
  nrScales : ℤ
  Gdebias : Kernel1D
  G01d : Kernel1D
  G20 : Mat
  G260 : Mat
  G2120 : Mat
  G0_a : Kernel1D
  G1 : Kernel1D
  isCreated : Bool

/-- Constructor `SingularityIndexFilters(minScale, nrScales)`: stores both parameters and
runs `_createFilters`.  The constructor performs no parameter validation; every
kernel is derived from `minScale` alone.  Grid convention for the 2-D kernels
(`np.meshgrid(range(-k,k+1), range(-k,k+1))` at array index `(i, j)`):
`X = j - k`, `Y = i - k`; `u_m = X·cos θ_m − Y·sin θ_m` for
`θ = 0, π/3, 2π/3`. -/
noncomputable def mkSingularityIndexFilters (minScale : ℚ) (nrScales : ℤ) :
    SingularityIndexFilters :=
  let sigmad : ℚ := 5 * minScale
  let kd : ℕ := (ksized minScale).toNat
  let sigma2 : ℚ := minScale
  let sigma1 : ℚ := minScale * (17754 / 10000)
  let k2 : ℕ := (ksize2 minScale).toNat
  let k1 : ℕ := (ksize1 minScale).toNat
  let G01d := getGaussianKernel (2 * k2 + 1) sigma2
  let G0 : ℕ → ℕ → ℝ := fun i j => G01d.val i * G01d.val j
  let u : ℝ → ℕ → ℕ → ℝ := fun theta i j =>
    ((j : ℝ) - (k2 : ℝ)) * Real.cos theta - ((i : ℝ) - (k2 : ℝ)) * Real.sin theta
  let secondDeriv : ℝ → Mat := fun theta =>
    ⟨2 * k2 + 1, 2 * k2 + 1, fun i j =>
      (u theta i j ^ 2 / (sigma2 : ℝ) ^ 4 - 1 / (sigma2 : ℝ) ^ 2) * G0 i j⟩
  let G0_a := getGaussianKernel (2 * k1 + 1) sigma1
  { minScale := minScale
    nrScales := nrScales
    Gdebias := getGaussianKernel (2 * kd + 1) sigmad
    G01d := G01d
    G20 := secondDeriv 0
    G260 := secondDeriv (Real.pi / 3)
    G2120 := secondDeriv (2 * Real.pi / 3)
    G0_a := G0_a
    G1 := ⟨2 * k1 + 1, fun j =>
      -((1 / (sigma1 : ℝ)) ^ 2) * ((j : ℝ) - (k1 : ℝ)) * G0_a.val j⟩
    isCreated := true }

/-! ### External image operations used by `applyMMSI` -/

/-- Zero-padded pixel access (the padding `scipy.signal.fftconvolve` uses). -/
def Mat.padded (M : Mat) (r c : ℤ) : ℝ :=
  if 0 ≤ r ∧ r < (M.rows : ℤ) ∧ 0 ≤ c ∧ c < (M.cols : ℤ) then M.pix r.toNat c.toNat
  else 0

/-- OpenCV `BORDER_REFLECT_101` index reflection into `[0, n)`:
`... 2 1 | 0 1 2 ... n-1 | n-2 n-3 ...` (period `2(n-1)`). -/
def reflect101 (n : ℕ) (i : ℤ) : ℕ :=
  if n ≤ 1 then 0
  else
    let j := i.emod (2 * ((n : ℤ) - 1))
    if j < (n : ℤ) then j.toNat else (2 * ((n : ℤ) - 1) - j).toNat

/-- Index clamping into `[0, n)` (border replication, used by `cv2.resize`). -/
def clampIdx (n : ℕ) (i : ℤ) : ℕ := (max 0 (min i ((n : ℤ) - 1))).toNat

/-- Embedding of `cv2.sepFilter2D(src, CV_64FC1, kernelX, kernelY, BORDER_REFLECT_101)`:
separable correlation, `kernelX` along columns and `kernelY` along rows,
anchored at the kernel centers, indices reflected at the borders. -/
noncomputable def sepFilter2D (src : Mat) (kx ky : Kernel1D) : Mat where
  rows := src.rows
  cols := src.cols
  pix := fun r c =>
    ∑ a ∈ Finset.range ky.size, ∑ b ∈ Finset.range kx.size,
      ky.val a * kx.val b *
        src.pix (reflect101 src.rows ((r : ℤ) + (a : ℤ) - (ky.size / 2 : ℕ)))
                (reflect101 src.cols ((c : ℤ) + (b : ℤ) - (kx.size / 2 : ℕ)))

/-- Embedding of `scipy.signal.fftconvolve(src, K, mode='same')`: full 2-D convolution with
zero padding, cropped to `src`'s extent starting at `((Kr-1)/2, (Kc-1)/2)`. -/
noncomputable def fftconvolveSame (src K : Mat) : Mat where
  rows := src.rows
  cols := src.cols
  pix := fun r c =>
    ∑ a ∈ Finset.range K.rows, ∑ b ∈ Finset.range K.cols,
      K.pix a b *
        src.padded ((r : ℤ) + ((K.rows - 1) / 2 : ℕ) - (a : ℤ))
                   ((c : ℤ) + ((K.cols - 1) / 2 : ℕ) - (b : ℤ))

/-- The four cubic-convolution interpolation coefficients OpenCV's
`INTER_CUBIC` uses (`interpolateCubic`, `A = -0.75`), at fractional offset
`t ∈ [0,1)`. -/
noncomputable def cubicCoeff (t : ℝ) (k : ℕ) : ℝ :=
  let A : ℝ := -3 / 4
  match k with
  | 0 => ((A * (t + 1) - 5 * A) * (t + 1) + 8 * A) * (t + 1) - 4 * A
  | 1 => ((A + 2) * t - (A + 3)) * t * t + 1
  | 2 => ((A + 2) * (1 - t) - (A + 3)) * (1 - t) * (1 - t) + 1
  | _ =>
    1 - (((A * (t + 1) - 5 * A) * (t + 1) + 8 * A) * (t + 1) - 4 * A) -
      (((A + 2) * t - (A + 3)) * t * t + 1) -
      (((A + 2) * (1 - t) - (A + 3)) * (1 - t) * (1 - t) + 1)

/-- Embedding of `cv2.resize(src, (W, H), interpolation=INTER_CUBIC)`: destination pixel
`(r, c)` maps to source coordinate `((r+½)·rows/H − ½, (c+½)·cols/W − ½)` and
is a 4×4 cubic-convolution combination of the surrounding source pixels,
coordinates clamped at the borders. -/
noncomputable def resizeCubic (src : Mat) (W H : ℕ) : Mat where
  rows := H
  cols := W
  pix := fun r c =>
    let sy : ℝ := ((r : ℝ) + 1 / 2) * ((src.rows : ℝ) / (H : ℝ)) - 1 / 2
    let sx : ℝ := ((c : ℝ) + 1 / 2) * ((src.cols : ℝ) / (W : ℝ)) - 1 / 2
    ∑ a ∈ Finset.range 4, ∑ b ∈ Finset.range 4,
      cubicCoeff (sy - ⌊sy⌋) a * cubicCoeff (sx - ⌊sx⌋) b *
        src.pix (clampIdx src.rows (⌊sy⌋ - 1 + (a : ℤ)))
                (clampIdx src.cols (⌊sx⌋ - 1 + (b : ℤ)))

/-- Embedding of `cv2.resize(src, (W, H), interpolation=INTER_NEAREST)`: destination pixel
`(r, c)` copies source pixel `(⌊r·rows/H⌋, ⌊c·cols/W⌋)` clamped to the
extent. -/
noncomputable def resizeNearest (src : Mat) (W H : ℕ) : Mat where
  rows := H
  cols := W
  pix := fun r c =>
    src.pix (min (Nat.floor ((r : ℝ) * ((src.rows : ℝ) / (H : ℝ)))) (src.rows - 1))
            (min (Nat.floor ((c : ℝ) * ((src.cols : ℝ) / (W : ℝ)))) (src.cols - 1))

/-- Embedding of `np.arctan2 y x` on exact reals: the angle of `(x, y)` in `(-π, π]`
(`arctan2 0 0 = 0`). -/
noncomputable def arctan2 (y x : ℝ) : ℝ :=
  if 0 < x then Real.arctan (y / x)
  else if x < 0 then
    (if 0 ≤ y then Real.arctan (y / x) + Real.pi else Real.arctan (y / x) - Real.pi)
  else
    (if 0 < y then Real.pi / 2 else if y < 0 then -(Real.pi / 2) else 0)

/-! ### The per-scale pipeline of `applyMMSI` -/

/-- One scale pass of `applyMMSI` applied to the (already downscaled) working
image: debias, second-order responses, orientation, first-order responses,
directional composition, singularity formula, polarity selection.  Returns the
scale's response map `psi_scale` (before upsampling) and orientation map
`angles` (before upsampling). -/
noncomputable def scalePass (filters : SingularityIndexFilters) (I1 : Mat) :
    Mat × Mat :=
  let mu := sepFilter2D I1 filters.Gdebias filters.Gdebias
  let I : Mat := ⟨I1.rows, I1.cols, fun r c => I1.pix r c - mu.pix r c⟩
  let J20 := fftconvolveSame I filters.G20
  let J260 := fftconvolveSame I filters.G260
  let J2120 := fftconvolveSame I filters.G2120
  let Nr : Mat := ⟨I.rows, I.cols, fun r c =>
    Real.sqrt 3 *
      (J260.pix r c ^ 2 - J2120.pix r c ^ 2 + J20.pix r c * J260.pix r c -
        J20.pix r c * J2120.pix r c)⟩
  let Dr : Mat := ⟨I.rows, I.cols, fun r c =>
    2 * J20.pix r c ^ 2 - J260.pix r c ^ 2 - J2120.pix r c ^ 2 +
      J20.pix r c * J260.pix r c - 2 * J260.pix r c * J2120.pix r c +
      J20.pix r c * J2120.pix r c⟩
  let angles : Mat := ⟨I.rows, I.cols, fun r c => arctan2 (Nr.pix r c) (Dr.pix r c) / 2⟩
  let J0u := sepFilter2D I filters.G1 filters.G0_a
  let J90u := sepFilter2D I filters.G0_a filters.G1
  let J0 := sepFilter2D I filters.G01d filters.G01d
  let J1 : Mat := ⟨I.rows, I.cols, fun r c =>
    J0u.pix r c * Real.cos (angles.pix r c) + J90u.pix r c * Real.sin (angles.pix r c)⟩
  let J2 : Mat := ⟨I.rows, I.cols, fun r c =>
    ((1 + 2 * Real.cos (2 * angles.pix r c)) * J20.pix r c +
      (1 - Real.cos (2 * angles.pix r c) + Real.sqrt 3 * Real.sin (2 * angles.pix r c)) *
        J260.pix r c +
      (1 - Real.cos (2 * angles.pix r c) - Real.sqrt 3 * Real.sin (2 * angles.pix r c)) *
        J2120.pix r c) / 3⟩
  let psi0 : Mat := ⟨I.rows, I.cols, fun r c =>
    |J0.pix r c| * J2.pix r c / (1 + |J1.pix r c| ^ 2)⟩
  let psi_scale : Mat := ⟨I.rows, I.cols, fun r c =>
    if 0 < psi0.pix r c then 0 else -psi0.pix r c⟩
  (psi_scale, angles)

/-- The target width `int(C/(np.sqrt(2)**s))`: downscaled width at scale `s` for original
width `C`. -/
noncomputable def dsizeW (C : ℕ) (s : ℕ) : ℕ := Nat.floor ((C : ℝ) / Real.sqrt 2 ^ s)

/-- The target height `int(R/(np.sqrt(2)**s))`: downscaled height at scale `s` for original
height `R`. -/
noncomputable def dsizeR (R : ℕ) (s : ℕ) : ℕ := Nat.floor ((R : ℝ) / Real.sqrt 2 ^ s)

/-- Every `cv2.resize` the scale loop performs (for `n` scales on an `R x C`
image) has a positive target size: the downscale targets at scales `1 ... n-1`
and, for the upsamples back, the original extent itself.  Outside this regime
`cv2.resize` raises `cv2.error` (empty `dsize` assertion) and `applyMMSI`
propagates the failure instead of returning maps. -/
def ResizeSafe (R C n : ℕ) : Prop :=
  ∀ s, 0 < s → s < n → dsizeW C s ≠ 0 ∧ dsizeR R s ≠ 0 ∧ C ≠ 0 ∧ R ≠ 0

/-- The Python failure modes of `applyMMSI`:
* `unsupportedShape` — the explicit `raise ValueError('This function inputs
  only a singe channel image')` for more than two dimensions;
* `unpackError` — the `ValueError` from `R, C = I1.shape` when the array has
  fewer than two dimensions;
* `nameError` — the unbound-local error at the final `widthMap[psi_sum>0]`
  line when the scale loop ran zero times and never assigned the
  aggregation variables;
* `cvError` — the `cv2.error` raised by `cv2.resize` when a requested target
  dimension is zero (empty `dsize` assertion), reached whenever a downscale
  target `int(C/sqrt(2)**s)` or `int(R/sqrt(2)**s)` hits zero, or the
  original extent itself is zero at an upsample. -/
inductive PyErr where
  | unsupportedShape
  | unpackError
  | nameError
  | cvError
deriving DecidableEq

/-- The cross-scale aggregation state of `applyMMSI` (`psi_max`, `psi_sum`,
`orient`, `widthMap`, `psi`), assigned at scale 0 and updated at every later
scale.  `sumAliased` records a numpy binding fact: at scale 0 the statements
`psi_max = psi_scale; psi_sum = psi_scale` bind BOTH names to the same array
object, and they stay aliased until `psi_sum = psi_sum + psi_scale` rebinds
`psi_sum` to a fresh array at the first `s > 0` iteration.  While aliased,
the in-place update `psi_max[idx] = psi_scale[idx]` mutates the array
`psi_sum` subsequently reads. -/
structure Agg where
  psi_max : Mat
  psi_sum : Mat
  sumAliased : Bool
  orient : Mat
  widthMap : Mat
  psi : Mat

/-- The `s == 0` arm of the aggregation: `psi_max = psi_scale` and
`psi_sum = psi_scale` (the two names now alias one array, hence
`sumAliased := true`), `orient = angles`,
`widthMap = minScale * sqrt(2)**0 * psi_scale`, `psi = psi_scale**2`. -/
noncomputable def aggInit (filters : SingularityIndexFilters)
    (psi_scale angles : Mat) : Agg where
  psi_max := psi_scale
  psi_sum := psi_scale
  sumAliased := true
  orient := angles
  widthMap := ⟨psi_scale.rows, psi_scale.cols, fun r c =>
    (filters.minScale : ℝ) * Real.sqrt 2 ^ (0 : ℕ) * psi_scale.pix r c⟩
  psi := ⟨psi_scale.rows, psi_scale.cols, fun r c => psi_scale.pix r c ^ 2⟩

/-- The `else` arm of the aggregation at scale `s ≥ 1`:
`idx = psi_scale > psi_max` is computed first, then
`psi_max[idx] = psi_scale[idx]` mutates the running-max array IN PLACE, and
only then does `psi_sum = psi_sum + psi_scale` read `psi_sum` — which, at the
first `s ≥ 1` iteration, is still the very array the previous line just
mutated (see `Agg.sumAliased`), so the base of the addition is the updated
running max rather than the scale-0 response; the rebinding breaks the alias
for all later scales.  `orient[idx] = angles[idx]` uses the `idx` computed
from the OLD `psi_max`; `widthMap` and `psi` accumulate into fresh arrays. -/
noncomputable def aggUpdate (filters : SingularityIndexFilters) (s : ℕ)
    (a : Agg) (psi_scale angles : Mat) : Agg :=
  let psiMaxNew : Mat := ⟨a.psi_max.rows, a.psi_max.cols, fun r c =>
    if a.psi_max.pix r c < psi_scale.pix r c then psi_scale.pix r c
    else a.psi_max.pix r c⟩
  { psi_max := psiMaxNew
    psi_sum := ⟨a.psi_sum.rows, a.psi_sum.cols, fun r c =>
      (if a.sumAliased then psiMaxNew.pix r c else a.psi_sum.pix r c) +
        psi_scale.pix r c⟩
    sumAliased := false
    orient := ⟨a.orient.rows, a.orient.cols, fun r c =>
      if a.psi_max.pix r c < psi_scale.pix r c then angles.pix r c
      else a.orient.pix r c⟩
    widthMap := ⟨a.widthMap.rows, a.widthMap.cols, fun r c =>
      a.widthMap.pix r c +
        (filters.minScale : ℝ) * Real.sqrt 2 ^ s * psi_scale.pix r c⟩
    psi := ⟨a.psi.rows, a.psi.cols, fun r c =>
      a.psi.pix r c + psi_scale.pix r c ^ 2⟩ }

/-- One iteration of the `for s in range(0, nrScales)` loop of `applyMMSI`.
The state is the current working image `I1` (rebound by the downscale step)
together with the aggregation variables, `none` before scale 0 assigns them
(in Python they are simply unbound local names until then).  The `s = 0`
iteration performs no `cv2.resize`; at `s > 0` the downscale checks its
target size and the two upsamples back to `(C, R)` check the original
extent, because `cv2.resize` raises `cv2.error` (assertion on an empty
`dsize`) whenever a requested dimension is zero. -/
noncomputable def loopBody (filters : SingularityIndexFilters) (R C : ℕ)
    (st : Mat × Option Agg) (s : ℕ) : Except PyErr (Mat × Option Agg) :=
  if s = 0 then
    .ok (st.1, some (aggInit filters (scalePass filters st.1).1
      (scalePass filters st.1).2))
  else
    if dsizeW C s = 0 ∨ dsizeR R s = 0 then .error .cvError
    else
      let I1 := resizeCubic st.1 (dsizeW C s) (dsizeR R s)
      if C = 0 ∨ R = 0 then .error .cvError
      else
        .ok (I1, st.2.map fun a =>
          aggUpdate filters s a (resizeCubic (scalePass filters I1).1 C R)
            (resizeNearest (scalePass filters I1).2 C R))

/-- The whole `for s in range(0, nrScales)` loop, started from the normalized
input image and unassigned aggregation variables; a `cv2.error` raised by a
resize aborts the remaining iterations. -/
noncomputable def runLoop (filters : SingularityIndexFilters) (R C : ℕ)
    (I0 : Mat) (n : ℕ) : Except PyErr (Mat × Option Agg) :=
  (List.range n).foldl
    (fun st s => st >>= fun p => loopBody filters R C p s) (.ok (I0, none))

/-! ### `applyMMSI` -/

/-- The dtype tag of a numpy input array, as far as `applyMMSI` inspects it. -/
inductive Dtype where
  | uint8
  | uint16
  | float64
deriving DecidableEq

/-- A numpy array as `applyMMSI` sees it: dtype, shape, and a total value
function on multi-indices. -/
structure NDArray where
  dtype : Dtype
  dims : List ℕ
  val : List ℕ → ℝ

/-- The dtype rescaling at the top of `applyMMSI`: `uint8` data is divided by
255, `uint16` data by 65535 (each conversion produces a float array, so the
two `if` statements act as an if/elif chain); anything else passes through. -/
noncomputable def normalizeInput (A : NDArray) : NDArray :=
  if A.dtype = Dtype.uint8 then ⟨Dtype.float64, A.dims, fun i => A.val i / 255⟩
  else if A.dtype = Dtype.uint16 then ⟨Dtype.float64, A.dims, fun i => A.val i / 65535⟩
  else A

/-- The part of `applyMMSI` from the shape check on: dimension validation,
`R, C = I1.shape`, the scale loop, and the finalization
`widthMap[psi_sum>0] /= psi_sum[psi_sum>0]; psi = sqrt(psi)`. -/
noncomputable def applyMMSICore (A : NDArray)
    (filters : SingularityIndexFilters) : Except PyErr (Mat × Mat × Mat) :=
  if 2 < A.dims.length then .error .unsupportedShape
  else if A.dims.length = 2 then
    let R := A.dims.getD 0 0
    let C := A.dims.getD 1 0
    let I0 : Mat := ⟨R, C, fun r c => A.val [r, c]⟩
    match runLoop filters R C I0 filters.nrScales.toNat with
    | .error e => .error e
    | .ok (_, none) => .error .nameError
    | .ok (_, some a) =>
      let widthMap : Mat := ⟨a.widthMap.rows, a.widthMap.cols, fun r c =>
        if 0 < a.psi_sum.pix r c then a.widthMap.pix r c / a.psi_sum.pix r c
        else a.widthMap.pix r c⟩
      let psi : Mat := ⟨a.psi.rows, a.psi.cols, fun r c => Real.sqrt (a.psi.pix r c)⟩
      .ok (psi, widthMap, a.orient)
  else .error .unpackError

/-- Function `applyMMSI(I1, filters)`: dtype rescaling followed by the core. -/
noncomputable def applyMMSI (I1 : NDArray) (filters : SingularityIndexFilters) :
    Except PyErr (Mat × Mat × Mat) :=
  applyMMSICore (normalizeInput I1) filters

/-! ### Characterization of the scale loop -/

/-- The working image at scale `s`: the original normalized image repeatedly
downscaled (`I1` is rebound each iteration, so scale `s` filters the image
downscaled `s` times, each time to the target size computed from the original
extent). -/
noncomputable def imgAt (R C : ℕ) (I0 : Mat) : ℕ → Mat
  | 0 => I0
  | s + 1 => resizeCubic (imgAt R C I0 s) (dsizeW C (s + 1)) (dsizeR R (s + 1))

/-- Scale `s`'s response map as aggregated at the original resolution: the
scale pass on `imgAt s`, upsampled back by cubic interpolation for `s > 0`. -/
noncomputable def psiScaleAt (filters : SingularityIndexFilters) (R C : ℕ)
    (I0 : Mat) (s : ℕ) : Mat :=
  if 0 < s then resizeCubic (scalePass filters (imgAt R C I0 s)).1 C R
  else (scalePass filters (imgAt R C I0 s)).1

/-- Scale `s`'s orientation map as aggregated at the original resolution: the
scale pass on `imgAt s`, upsampled back by nearest-neighbor for `s > 0`. -/
noncomputable def anglesAt (filters : SingularityIndexFilters) (R C : ℕ)
    (I0 : Mat) (s : ℕ) : Mat :=
  if 0 < s then resizeNearest (scalePass filters (imgAt R C I0 s)).2 C R
  else (scalePass filters (imgAt R C I0 s)).2

/-- All pixel values of a matrix are zero. -/
def ZeroPix (M : Mat) : Prop := ∀ r c, M.pix r c = 0

lemma runLoop_zero (filters : SingularityIndexFilters) (R C : ℕ) (I0 : Mat) :
    runLoop filters R C I0 0 = .ok (I0, none) := rfl

lemma runLoop_succ (filters : SingularityIndexFilters) (R C : ℕ) (I0 : Mat)
    (n : ℕ) :
    runLoop filters R C I0 (n + 1) =
      runLoop filters R C I0 n >>= fun p => loopBody filters R C p n := by
  simp [runLoop, List.range_succ]

lemma ok_bind (p : Mat × Option Agg)
    (f : Mat × Option Agg → Except PyErr (Mat × Option Agg)) :
    ((.ok p : Except PyErr (Mat × Option Agg)) >>= f) = f p := rfl

lemma error_bind (e : PyErr)
    (f : Mat × Option Agg → Except PyErr (Mat × Option Agg)) :
    ((.error e : Except PyErr (Mat × Option Agg)) >>= f) = .error e := rfl

lemma ite_lt_max (x y : ℝ) : (if x < y then y else x) = max x y := by
  by_cases h : x < y
  · rw [if_pos h, max_eq_right h.le]
  · rw [if_neg h, max_eq_left (not_lt.mp h)]

lemma loopBody_at_zero (filters : SingularityIndexFilters) (R C : ℕ)
    (I0 : Mat) (agg : Option Agg) :
    loopBody filters R C (I0, agg) 0 =
      .ok (I0, some (aggInit filters (psiScaleAt filters R C I0 0)
        (anglesAt filters R C I0 0))) := by
  simp [loopBody, psiScaleAt, anglesAt, imgAt]

lemma loopBody_at_succ (filters : SingularityIndexFilters) (R C : ℕ)
    (I0 : Mat) (s : ℕ) (a : Agg)
    (hW : dsizeW C (s + 1) ≠ 0) (hR : dsizeR R (s + 1) ≠ 0)
    (hC : C ≠ 0) (hR0 : R ≠ 0) :
    loopBody filters R C (imgAt R C I0 s, some a) (s + 1) =
      .ok (imgAt R C I0 (s + 1),
        some (aggUpdate filters (s + 1) a
          (psiScaleAt filters R C I0 (s + 1))
          (anglesAt filters R C I0 (s + 1)))) := by
  simp [loopBody, hW, hR, hC, hR0, psiScaleAt, anglesAt, imgAt]

lemma loopBody_resize_error (filters : SingularityIndexFilters) (R C : ℕ)
    (st : Mat × Option Agg) (s : ℕ) (hs : s ≠ 0)
    (h : dsizeW C s = 0 ∨ dsizeR R s = 0) :
    loopBody filters R C st s = .error .cvError := by
  simp [loopBody, hs, h]

lemma loopBody_error_is_cv (filters : SingularityIndexFilters) (R C : ℕ)
    (st : Mat × Option Agg) (s : ℕ) (e : PyErr)
    (h : loopBody filters R C st s = .error e) : e = .cvError := by
  simp only [loopBody] at h
  split_ifs at h <;> simp_all

lemma runLoop_error_is_cv (filters : SingularityIndexFilters) (R C : ℕ)
    (I0 : Mat) (n : ℕ) (e : PyErr)
    (h : runLoop filters R C I0 n = .error e) : e = .cvError := by
  induction n with
  | zero =>
    rw [runLoop_zero] at h
    exact absurd h (by simp)
  | succ n ih =>
    rw [runLoop_succ] at h
    rcases hr : runLoop filters R C I0 n with f | p
    · rw [hr, error_bind] at h
      cases Except.error.inj h
      exact ih hr
    · rw [hr, ok_bind] at h
      exact loopBody_error_is_cv filters R C p n e h

/-- After `n ≥ 1` iterations with all resize targets positive the loop state
is: working image `imgAt (n-1)`, aggregation variables assigned, with
`widthMap` and `psi` the unconditional per-pixel sums over scales `0 … n-1`,
`psi_sum` given by the aliasing-affected formula (for `n ≥ 2` the scale-0
term is replaced by `max(ψ₀, ψ₁)`, because the in-place max update at scale 1
mutates the array `psi_sum` still aliases), and every `orient` pixel a value
copied from some scale's orientation map. -/
lemma runLoop_spec (filters : SingularityIndexFilters) (R C : ℕ) (I0 : Mat)
    (n : ℕ) (hn : 1 ≤ n) (hsafe : ResizeSafe R C n) :
    ∃ a : Agg,
      runLoop filters R C I0 n = .ok (imgAt R C I0 (n - 1), some a) ∧
      (n = 1 → a.sumAliased = true ∧ ∀ r c,
        a.psi_max.pix r c = (psiScaleAt filters R C I0 0).pix r c ∧
        a.psi_sum.pix r c = (psiScaleAt filters R C I0 0).pix r c) ∧
      (2 ≤ n → a.sumAliased = false ∧ ∀ r c,
        a.psi_sum.pix r c =
          max ((psiScaleAt filters R C I0 0).pix r c)
              ((psiScaleAt filters R C I0 1).pix r c) +
            ∑ s ∈ Finset.Ico 1 n, (psiScaleAt filters R C I0 s).pix r c) ∧
      (∀ r c, a.widthMap.pix r c =
        ∑ s ∈ Finset.range n,
          (filters.minScale : ℝ) * Real.sqrt 2 ^ s *
            (psiScaleAt filters R C I0 s).pix r c) ∧
      (∀ r c, a.psi.pix r c =
        ∑ s ∈ Finset.range n, (psiScaleAt filters R C I0 s).pix r c ^ 2) ∧
      (∀ r c, ∃ s r' c', s < n ∧
        a.orient.pix r c = (anglesAt filters R C I0 s).pix r' c') := by
  revert hsafe
  induction n, hn using Nat.le_induction with
  | base =>
    intro hsafe
    rw [show (1 : ℕ) = 0 + 1 from rfl, runLoop_succ, runLoop_zero, ok_bind,
      loopBody_at_zero]
    refine ⟨_, rfl, ?_, ?_, ?_, ?_, ?_⟩
    · exact fun _ => ⟨rfl, fun r c => ⟨rfl, rfl⟩⟩
    · exact fun h2 => absurd h2 (by omega)
    · intro r c
      simp [aggInit]
    · intro r c
      simp [aggInit]
    · intro r c
      exact ⟨0, r, c, Nat.zero_lt_one, rfl⟩
  | succ n hn ih =>
    intro hsafe
    obtain ⟨a, hrl, h1c, h2c, hwidth, hpsi, horient⟩ :=
      ih (fun s hs hlt => hsafe s hs (by omega))
    rw [runLoop_succ, hrl, ok_bind]
    obtain ⟨m, rfl⟩ : ∃ m, n = m + 1 := ⟨n - 1, (Nat.succ_pred_eq_of_pos hn).symm⟩
    rw [show m + 1 - 1 = m from rfl]
    obtain ⟨hW, hR, hC, hR0⟩ := hsafe (m + 1) (by omega) (by omega)
    rw [loopBody_at_succ filters R C I0 m a hW hR hC hR0]
    refine ⟨_, rfl, ?_, ?_, ?_, ?_, ?_⟩
    · exact fun h1 => absurd h1 (by omega)
    · intro _
      refine ⟨rfl, fun r c => ?_⟩
      have hred :
          (aggUpdate filters (m + 1) a (psiScaleAt filters R C I0 (m + 1))
            (anglesAt filters R C I0 (m + 1))).psi_sum.pix r c =
            (if a.sumAliased then
              (if a.psi_max.pix r c <
                  (psiScaleAt filters R C I0 (m + 1)).pix r c then
                (psiScaleAt filters R C I0 (m + 1)).pix r c
              else a.psi_max.pix r c)
            else a.psi_sum.pix r c) +
              (psiScaleAt filters R C I0 (m + 1)).pix r c := rfl
      rw [hred]
      rcases Nat.eq_zero_or_pos m with rfl | hm
      · obtain ⟨hal, hmx⟩ := h1c rfl
        rw [hal, if_pos rfl, (hmx r c).1, ite_lt_max,
          Finset.sum_Ico_succ_top (by omega : (1 : ℕ) ≤ 0 + 1)]
        simp [Finset.Ico_self]
      · obtain ⟨hal, hsum⟩ := h2c (by omega)
        rw [hal, if_neg (by simp), hsum r c,
          Finset.sum_Ico_succ_top (by omega : (1 : ℕ) ≤ m + 1), add_assoc]
    · intro r c
      have hred :
          (aggUpdate filters (m + 1) a (psiScaleAt filters R C I0 (m + 1))
            (anglesAt filters R C I0 (m + 1))).widthMap.pix r c =
            a.widthMap.pix r c +
              (filters.minScale : ℝ) * Real.sqrt 2 ^ (m + 1) *
                (psiScaleAt filters R C I0 (m + 1)).pix r c := rfl
      rw [hred, Finset.sum_range_succ, hwidth r c]
    · intro r c
      have hred :
          (aggUpdate filters (m + 1) a (psiScaleAt filters R C I0 (m + 1))
            (anglesAt filters R C I0 (m + 1))).psi.pix r c =
            a.psi.pix r c + (psiScaleAt filters R C I0 (m + 1)).pix r c ^ 2 := rfl
      rw [hred, Finset.sum_range_succ, hpsi r c]
    · intro r c
      by_cases h : a.psi_max.pix r c < (psiScaleAt filters R C I0 (m + 1)).pix r c
      · exact ⟨m + 1, r, c, Nat.lt_succ_self _, by simp [aggUpdate, h]⟩
      · obtain ⟨s, r', c', hs, he⟩ := horient r c
        exact ⟨s, r', c', Nat.lt_succ_of_lt hs, by simp [aggUpdate, h, he]⟩

/-! ### Routing lemmas for `applyMMSI` -/

lemma normalizeInput_dims (A : NDArray) : (normalizeInput A).dims = A.dims := by
  by_cases h8 : A.dtype = Dtype.uint8 <;>
    by_cases h16 : A.dtype = Dtype.uint16 <;>
      simp [normalizeInput, h8, h16]

/-- On a two-dimensional input, `applyMMSI` reaches the scale loop: its
result is the loop outcome on the normalized image — a propagated loop error,
the unbound-local error if the loop ran zero times, or the finalized maps. -/
lemma applyMMSI_two_dim (A : NDArray) (filters : SingularityIndexFilters)
    (R C : ℕ) (hd : A.dims = [R, C]) :
    applyMMSI A filters =
      match runLoop filters R C
          ⟨R, C, fun r c => (normalizeInput A).val [r, c]⟩
          filters.nrScales.toNat with
      | .error e => .error e
      | .ok (_, none) => .error .nameError
      | .ok (_, some a) =>
        .ok (⟨a.psi.rows, a.psi.cols, fun r c => Real.sqrt (a.psi.pix r c)⟩,
          ⟨a.widthMap.rows, a.widthMap.cols, fun r c =>
            if 0 < a.psi_sum.pix r c then a.widthMap.pix r c / a.psi_sum.pix r c
            else a.widthMap.pix r c⟩,
          a.orient) := by
  have hd' : (normalizeInput A).dims = [R, C] := by rw [normalizeInput_dims, hd]
  simp only [applyMMSI, applyMMSICore, hd']
  norm_num

/-! ### Zero propagation (claim C5) -/

lemma zeroPix_padded {M : Mat} (h : ZeroPix M) (r c : ℤ) : M.padded r c = 0 := by
  unfold Mat.padded
  split
  · exact h _ _
  · rfl

lemma zeroPix_sepFilter {M : Mat} (h : ZeroPix M) (kx ky : Kernel1D) :
    ZeroPix (sepFilter2D M kx ky) := by
  intro r c
  simp only [sepFilter2D]
  refine Finset.sum_eq_zero fun a _ => Finset.sum_eq_zero fun b _ => ?_
  rw [h _ _, mul_zero]

lemma zeroPix_conv {M : Mat} (h : ZeroPix M) (K : Mat) :
    ZeroPix (fftconvolveSame M K) := by
  intro r c
  simp only [fftconvolveSame]
  refine Finset.sum_eq_zero fun a _ => Finset.sum_eq_zero fun b _ => ?_
  rw [zeroPix_padded h, mul_zero]

lemma zeroPix_resizeCubic {M : Mat} (h : ZeroPix M) (W H : ℕ) :
    ZeroPix (resizeCubic M W H) := by
  intro r c
  simp only [resizeCubic]
  refine Finset.sum_eq_zero fun a _ => Finset.sum_eq_zero fun b _ => ?_
  rw [h _ _, mul_zero]

lemma zeroPix_scalePass (filters : SingularityIndexFilters) {M : Mat}
    (h : ZeroPix M) : ZeroPix (scalePass filters M).1 := by
  have hsub : ZeroPix (⟨M.rows, M.cols, fun r c =>
      M.pix r c - (sepFilter2D M filters.Gdebias filters.Gdebias).pix r c⟩ : Mat) := by
    intro r c
    have := zeroPix_sepFilter h filters.Gdebias filters.Gdebias r c
    simp only [Mat.pix] at this ⊢
    rw [h _ _, this, sub_zero]
  intro r c
  simp only [scalePass]
  have hJ0 := zeroPix_sepFilter hsub filters.G01d filters.G01d r c
  have hJ2 := zeroPix_conv hsub filters.G20 r c
  have hJ260 := zeroPix_conv hsub filters.G260 r c
  have hJ2120 := zeroPix_conv hsub filters.G2120 r c
  simp [hJ0, hJ2, hJ260, hJ2120]

lemma zeroPix_imgAt {I0 : Mat} (h : ZeroPix I0) (R C s : ℕ) :
    ZeroPix (imgAt R C I0 s) := by
  induction s with
  | zero => exact h
  | succ s ih => exact zeroPix_resizeCubic ih _ _

lemma zeroPix_psiScaleAt (filters : SingularityIndexFilters) {I0 : Mat}
    (h : ZeroPix I0) (R C s : ℕ) :
    ZeroPix (psiScaleAt filters R C I0 s) := by
  unfold psiScaleAt
  split
  · exact zeroPix_resizeCubic (zeroPix_scalePass filters (zeroPix_imgAt h R C s)) _ _
  · exact zeroPix_scalePass filters (zeroPix_imgAt h R C s)

/-! ### Orientation range (claim C7) -/

lemma arctan2_mem (y x : ℝ) : -Real.pi < arctan2 y x ∧ arctan2 y x ≤ Real.pi := by
  have hpi := Real.pi_pos
  have h1 : ∀ z : ℝ, -(Real.pi / 2) < Real.arctan z := fun z =>
    Real.neg_pi_div_two_lt_arctan z
  have h2 : ∀ z : ℝ, Real.arctan z < Real.pi / 2 := fun z =>
    Real.arctan_lt_pi_div_two z
  unfold arctan2
  by_cases hx : 0 < x
  · rw [if_pos hx]
    constructor <;> nlinarith [h1 (y / x), h2 (y / x)]
  · rw [if_neg hx]
    by_cases hx' : x < 0
    · rw [if_pos hx']
      by_cases hy : 0 ≤ y
      · rw [if_pos hy]
        have ha : Real.arctan (y / x) ≤ 0 := by
          have := Real.arctan_strictMono.monotone
            (div_nonpos_of_nonneg_of_nonpos hy hx'.le)
          rwa [Real.arctan_zero] at this
        constructor <;> nlinarith [h1 (y / x)]
      · rw [if_neg hy]
        have ha : 0 < Real.arctan (y / x) := by
          have := Real.arctan_strictMono
            (div_pos_of_neg_of_neg (lt_of_not_ge hy) hx')
          rwa [Real.arctan_zero] at this
        constructor <;> nlinarith [h2 (y / x)]
    · rw [if_neg hx']
      by_cases hy : 0 < y
      · rw [if_pos hy]; constructor <;> nlinarith
      · rw [if_neg hy]
        by_cases hy' : y < 0
        · rw [if_pos hy']; constructor <;> nlinarith
        · rw [if_neg hy']; constructor <;> nlinarith

/-- Every pixel of a scale pass's orientation map is `arctan2(Nr, Dr)/2`,
hence lies in `(-π/2, π/2]`. -/
lemma scalePass_angles_mem (filters : SingularityIndexFilters) (M : Mat)
    (r c : ℕ) :
    -(Real.pi / 2) < (scalePass filters M).2.pix r c ∧
      (scalePass filters M).2.pix r c ≤ Real.pi / 2 := by
  have : ∃ y x, (scalePass filters M).2.pix r c = arctan2 y x / 2 :=
    ⟨_, _, rfl⟩
  obtain ⟨y, x, he⟩ := this
  obtain ⟨hl, hu⟩ := arctan2_mem y x
  rw [he]
  constructor <;> linarith

/-- Every pixel of the (possibly nearest-neighbor upsampled) orientation map
of scale `s` lies in `(-π/2, π/2]`. -/
lemma anglesAt_mem (filters : SingularityIndexFilters) (R C : ℕ) (I0 : Mat)
    (s r c : ℕ) :
    -(Real.pi / 2) < (anglesAt filters R C I0 s).pix r c ∧
      (anglesAt filters R C I0 s).pix r c ≤ Real.pi / 2 := by
  unfold anglesAt
  split
  · exact scalePass_angles_mem filters _ _ _
  · exact scalePass_angles_mem filters _ _ _

/-! ### Small helper lemmas -/

lemma pyInt_of_nonneg {q : ℚ} (h : 0 ≤ q) : pyInt q = ⌊q⌋ := if_pos h

lemma normalizeInput_val_zero {A : NDArray} (hz : ∀ i, A.val i = 0) (i : List ℕ) :
    (normalizeInput A).val i = 0 := by
  unfold normalizeInput
  split
  · simp [hz]
  · split
    · simp [hz]
    · exact hz i

lemma dsizeW_one_one : dsizeW 1 1 = 0 := by
  unfold dsizeW
  rw [pow_one]
  refine Nat.floor_eq_zero.mpr ?_
  rw [div_lt_one (Real.sqrt_pos.mpr (by norm_num))]
  push_cast
  exact (Real.lt_sqrt (by norm_num)).mpr (by norm_num)

lemma dsizeW_two_one : dsizeW 2 1 ≠ 0 := by
  unfold dsizeW
  rw [pow_one]
  have h : (1 : ℝ) ≤ ((2 : ℕ) : ℝ) / Real.sqrt 2 := by
    push_cast
    rw [Real.div_sqrt]
    exact Real.one_le_sqrt.mpr (by norm_num)
  exact (Nat.floor_pos.mpr h).ne'

lemma dsizeR_two_one : dsizeR 2 1 ≠ 0 := dsizeW_two_one

/-! ### Claim theorems -/

/-- C1 counterexample: the running sum is NOT accumulated unconditionally.
At scale 0, `psi_max = psi_scale` and `psi_sum = psi_scale` bind the same
array; at scale 1 the in-place `psi_max[idx] = psi_scale[idx]` mutates that
shared array before `psi_sum = psi_sum + psi_scale` reads it.  Executing the
two aggregation arms with scale responses 0 (scale 0) and 1 (scale 1) at a
pixel, the running sum becomes `max(0, 1) + 1 = 2`, whereas the sum over the
two scale responses is `0 + 1 = 1`. -/
theorem C1_counterexample :
    (aggUpdate (mkSingularityIndexFilters (3 / 2) 2) 1
        (aggInit (mkSingularityIndexFilters (3 / 2) 2)
          ⟨1, 1, fun _ _ => 0⟩ ⟨1, 1, fun _ _ => 0⟩)
        ⟨1, 1, fun _ _ => 1⟩ ⟨1, 1, fun _ _ => 0⟩).psi_sum.pix 0 0 = 2 ∧
    (⟨1, 1, fun _ _ => 0⟩ : Mat).pix 0 0 +
      (⟨1, 1, fun _ _ => 1⟩ : Mat).pix 0 0 = 1 := by
  constructor
  · show (if (aggInit (mkSingularityIndexFilters (3 / 2) 2)
        ⟨1, 1, fun _ _ => 0⟩ ⟨1, 1, fun _ _ => 0⟩).sumAliased then
          (if (0 : ℝ) < 1 then (1 : ℝ) else 0) else 0) + 1 = 2
    norm_num [aggInit]
  · norm_num

/-- C1 (amended): in `applyMMSI`'s cross-scale aggregation the running sum is
corrupted by array aliasing and therefore depends on which of the first two
scales holds the running maximum: `psi_max` and `psi_sum` alias one array at
scale 0 and scale 1's in-place max update mutates it before the sum update
reads it, so for `nrScales ≥ 2` (with all resize targets positive, so the
loop completes), after the loop `psi_sum` at every pixel equals
`max(ψ₀, ψ₁) + Σ_{s=1}^{nrScales-1} ψₛ` — the scale-0 term is replaced by the
larger of the first two scales' upsampled responses. -/
theorem C1_amended_psi_sum_aliasing (filters : SingularityIndexFilters)
    (R C : ℕ) (I0 : Mat) (hn : 2 ≤ filters.nrScales)
    (hsafe : ResizeSafe R C filters.nrScales.toNat) :
    ∃ a : Agg,
      runLoop filters R C I0 filters.nrScales.toNat =
        .ok (imgAt R C I0 (filters.nrScales.toNat - 1), some a) ∧
      ∀ r c, a.psi_sum.pix r c =
        max ((psiScaleAt filters R C I0 0).pix r c)
            ((psiScaleAt filters R C I0 1).pix r c) +
          ∑ s ∈ Finset.Ico 1 filters.nrScales.toNat,
            (psiScaleAt filters R C I0 s).pix r c := by
  have hn' : 2 ≤ filters.nrScales.toNat := by omega
  obtain ⟨a, hrl, -, h2c, -, -, -⟩ :=
    runLoop_spec filters R C I0 _ (by omega) hsafe
  exact ⟨a, hrl, (h2c hn').2⟩

theorem C1_amended_witness :
    ∃ a : Agg,
      runLoop (mkSingularityIndexFilters (3 / 2) 2) 2 2 ⟨2, 2, fun _ _ => 0⟩
          (mkSingularityIndexFilters (3 / 2) 2).nrScales.toNat =
        .ok (imgAt 2 2 ⟨2, 2, fun _ _ => 0⟩
          ((mkSingularityIndexFilters (3 / 2) 2).nrScales.toNat - 1), some a) := by
  obtain ⟨a, hrl, -⟩ :=
    C1_amended_psi_sum_aliasing (mkSingularityIndexFilters (3 / 2) 2) 2 2
      ⟨2, 2, fun _ _ => 0⟩ (by decide)
      (fun s hs hlt => by
        have hs2 : s < 2 := hlt
        have hs1 : s = 1 := by omega
        subst hs1
        exact ⟨dsizeW_two_one, dsizeR_two_one, by omega, by omega⟩)
  exact ⟨a, hrl⟩

/-- C2 counterexample: the claim says a non-positive `nrScales` is rejected
with `InvalidParameter` before any kernel is built; in fact construction with
`nrScales = 0` runs to completion — the completion flag is set, the parameter
is stored unchanged, and the debias kernel is built (size `2*22+1 = 45` for
`minScale = 1.5`). -/
theorem C2_counterexample :
    (mkSingularityIndexFilters (3 / 2) 0).nrScales = 0 ∧
    (mkSingularityIndexFilters (3 / 2) 0).isCreated = true ∧
    (mkSingularityIndexFilters (3 / 2) 0).Gdebias.size = 45 := by
  refine ⟨rfl, rfl, ?_⟩
  show 2 * (ksized (3 / 2)).toNat + 1 = 45
  rw [ksized, pyInt_of_nonneg (by norm_num),
    show (⌊(5 * (3 / 2 : ℚ) * 3)⌋ : ℤ) = 22 by norm_num]
  decide

/-- C2 (amended): `SingularityIndexFilters` construction performs no parameter
validation: for any `minScale > 0` and any non-positive `nrScales`,
construction completes (the completion flag `isCreated` is set after all
kernels are built) and both parameters are stored unchanged; no
`InvalidParameter` failure exists. -/
theorem C2_amended_construction_accepts_nonpositive_nrScales
    (m : ℚ) (_hm : 0 < m) (n : ℤ) (_hn : n ≤ 0) :
    (mkSingularityIndexFilters m n).isCreated = true ∧
    (mkSingularityIndexFilters m n).minScale = m ∧
    (mkSingularityIndexFilters m n).nrScales = n :=
  ⟨rfl, rfl, rfl⟩

theorem C2_amended_witness :
    (0 : ℚ) < 3 / 2 ∧ (-1 : ℤ) ≤ 0 ∧
    (mkSingularityIndexFilters (3 / 2) (-1)).isCreated = true :=
  ⟨by norm_num, by decide,
    (C2_amended_construction_accepts_nonpositive_nrScales (3 / 2) (by norm_num)
      (-1) (by decide)).1⟩

/-- C3: `applyMMSI` fails with the `UnsupportedShape` error (`raise
ValueError('This function inputs only a singe channel image')`) exactly when
the input array has more than two dimensions; the check precedes the scale
loop, so no filtering work happens in that case, while every 2-D input
proceeds into the per-scale loop and finalization. -/
theorem C3_unsupported_shape_iff (A : NDArray)
    (filters : SingularityIndexFilters) :
    (applyMMSI A filters = .error .unsupportedShape ↔ 2 < A.dims.length) ∧
    (∀ R C, A.dims = [R, C] →
      applyMMSI A filters =
        match runLoop filters R C
            ⟨R, C, fun r c => (normalizeInput A).val [r, c]⟩
            filters.nrScales.toNat with
        | .error e => .error e
        | .ok (_, none) => .error .nameError
        | .ok (_, some a) =>
          .ok (⟨a.psi.rows, a.psi.cols, fun r c => Real.sqrt (a.psi.pix r c)⟩,
            ⟨a.widthMap.rows, a.widthMap.cols, fun r c =>
              if 0 < a.psi_sum.pix r c then
                a.widthMap.pix r c / a.psi_sum.pix r c
              else a.widthMap.pix r c⟩,
            a.orient)) := by
  constructor
  · constructor
    · intro h
      by_contra hlen
      rw [not_lt] at hlen
      rcases hdl : A.dims with - | ⟨R, - | ⟨C, - | ⟨D, rest⟩⟩⟩
      · rw [applyMMSI, applyMMSICore, normalizeInput_dims, hdl] at h
        simp at h
      · rw [applyMMSI, applyMMSICore, normalizeInput_dims, hdl] at h
        simp at h
      · rw [applyMMSI_two_dim A filters R C hdl] at h
        rcases hrl : runLoop filters R C
            ⟨R, C, fun r c => (normalizeInput A).val [r, c]⟩
            filters.nrScales.toNat with e | ⟨M, ag⟩
        · rw [hrl] at h
          have he : e = PyErr.unsupportedShape := by simpa using h
          have hcv : e = PyErr.cvError :=
            runLoop_error_is_cv filters R C _ _ e hrl
          rw [he] at hcv
          exact absurd hcv (by simp)
        · rcases ag with - | a <;> rw [hrl] at h <;> simp at h
      · rw [hdl] at hlen
        simp at hlen
    · intro h
      rw [applyMMSI, applyMMSICore, normalizeInput_dims, if_pos h]
  · intro R C hd
    exact applyMMSI_two_dim A filters R C hd

theorem C3_witness :
    applyMMSI ⟨Dtype.float64, [1, 1, 1], fun _ => 0⟩
        (mkSingularityIndexFilters (3 / 2) 15) = .error .unsupportedShape ∧
    ([1, 1] : List ℕ) = [1, 1] :=
  ⟨(C3_unsupported_shape_iff ⟨Dtype.float64, [1, 1, 1], fun _ => 0⟩
      (mkSingularityIndexFilters (3 / 2) 15)).1.mpr (by decide), rfl⟩

/-- C4 counterexample: for `minScale = 2` the second-derivative / base
Gaussian kernels have sigma `2` and the code-derived half-size
`ksize2 = int(3*2) + 1 = 7` (full size 15), whereas the claimed
`round(3·sigma) = 6` would give full size 13. -/
theorem C4_counterexample :
    (mkSingularityIndexFilters 2 15).G01d.size = 15 ∧
    2 * (round ((3 : ℚ) * 2)).toNat + 1 = 13 := by
  constructor
  · show 2 * (ksize2 2).toNat + 1 = 15
    rw [ksize2, pyInt_of_nonneg (by norm_num),
      show (⌊((2 : ℚ) * 3)⌋ : ℤ) = 6 by norm_num]
    decide
  · rw [show (round ((3 : ℚ) * 2) : ℤ) = 6 by norm_num]
    decide

/-- C4 (amended): for every `minScale > 0` the kernel half-sizes are derived
by truncation, not rounding: the debias kernel (sigma `5·minScale`) has half
size `⌊3·sigma⌋`, while the second-derivative / base Gaussian kernels (sigma
`minScale`) and the first-derivative kernels (sigma `minScale·1.7754`) have
half size `⌊3·sigma⌋ + 1`; all full sizes are `2k+1` and odd. -/
theorem C4_amended_kernel_sizes (m : ℚ) (hm : 0 < m) (n : ℤ) :
    (mkSingularityIndexFilters m n).Gdebias.size =
      2 * (⌊(3 : ℚ) * (5 * m)⌋).toNat + 1 ∧
    (mkSingularityIndexFilters m n).G01d.size =
      2 * ((⌊(3 : ℚ) * m⌋).toNat + 1) + 1 ∧
    (mkSingularityIndexFilters m n).G20.rows =
      (mkSingularityIndexFilters m n).G01d.size ∧
    (mkSingularityIndexFilters m n).G20.cols =
      (mkSingularityIndexFilters m n).G01d.size ∧
    (mkSingularityIndexFilters m n).G0_a.size =
      2 * ((⌊(3 : ℚ) * (m * (17754 / 10000))⌋).toNat + 1) + 1 ∧
    (mkSingularityIndexFilters m n).G1.size =
      (mkSingularityIndexFilters m n).G0_a.size ∧
    Odd (mkSingularityIndexFilters m n).Gdebias.size ∧
    Odd (mkSingularityIndexFilters m n).G01d.size ∧
    Odd (mkSingularityIndexFilters m n).G0_a.size := by
  have hkd : ksized m = ⌊(3 : ℚ) * (5 * m)⌋ := by
    rw [ksized, pyInt_of_nonneg (by positivity)]
    congr 1
    ring
  have hk2 : ksize2 m = ⌊(3 : ℚ) * m⌋ + 1 := by
    rw [ksize2, pyInt_of_nonneg (by positivity)]
    congr 1
    rw [mul_comm]
  have hk1 : ksize1 m = ⌊(3 : ℚ) * (m * (17754 / 10000))⌋ + 1 := by
    rw [ksize1, pyInt_of_nonneg (by positivity)]
    congr 1
    rw [mul_comm]
  have h2nn : (0 : ℤ) ≤ ⌊(3 : ℚ) * m⌋ := Int.floor_nonneg.mpr (by positivity)
  have h1nn : (0 : ℤ) ≤ ⌊(3 : ℚ) * (m * (17754 / 10000))⌋ :=
    Int.floor_nonneg.mpr (by positivity)
  refine ⟨?_, ?_, rfl, rfl, ?_, rfl, ⟨_, rfl⟩, ⟨_, rfl⟩, ⟨_, rfl⟩⟩
  · show 2 * (ksized m).toNat + 1 = _
    rw [hkd]
  · show 2 * (ksize2 m).toNat + 1 = _
    rw [hk2]
    omega
  · show 2 * (ksize1 m).toNat + 1 = _
    rw [hk1]
    omega

theorem C4_amended_witness :
    (0 : ℚ) < 3 / 2 ∧
    (mkSingularityIndexFilters (3 / 2) 15).Gdebias.size =
      2 * (⌊(3 : ℚ) * (5 * (3 / 2))⌋).toNat + 1 :=
  ⟨by norm_num, (C4_amended_kernel_sizes (3 / 2) (by norm_num) 15).1⟩

/-- C5 counterexample: the claim promises completion and zero maps for EVERY
all-zero 2-D input and every validly constructed filter bank, but a 1x1
all-zero image with `nrScales = 2` reaches scale 1 with downscale target
`int(1/sqrt(2)) = 0`, so `cv2.resize` raises `cv2.error` and `applyMMSI`
does not return any maps. -/
theorem C5_counterexample :
    applyMMSI ⟨Dtype.float64, [1, 1], fun _ => 0⟩
      (mkSingularityIndexFilters (3 / 2) 2) = .error .cvError := by
  rw [applyMMSI_two_dim ⟨Dtype.float64, [1, 1], fun _ => 0⟩
    (mkSingularityIndexFilters (3 / 2) 2) 1 1 rfl]
  have e2 : runLoop (mkSingularityIndexFilters (3 / 2) 2) 1 1
      ⟨1, 1, fun r c =>
        (normalizeInput ⟨Dtype.float64, [1, 1], fun _ => 0⟩).val [r, c]⟩
      (mkSingularityIndexFilters (3 / 2) 2).nrScales.toNat =
      (loopBody (mkSingularityIndexFilters (3 / 2) 2) 1 1
        (⟨1, 1, fun r c =>
          (normalizeInput ⟨Dtype.float64, [1, 1], fun _ => 0⟩).val [r, c]⟩,
          none) 0 >>=
        fun p => loopBody (mkSingularityIndexFilters (3 / 2) 2) 1 1 p 1) := rfl
  rw [e2, loopBody_at_zero, ok_bind,
    loopBody_resize_error (mkSingularityIndexFilters (3 / 2) 2) 1 1 _ 1
      (by omega) (Or.inl dsizeW_one_one)]

/-- C5 (amended): on an all-zero 2-D input, `applyMMSI` with a validly
constructed filter bank (`minScale > 0`, `nrScales ≥ 1`) whose downscale
targets stay positive at every scale (otherwise `cv2.resize` raises on an
empty target size) completes and returns a response magnitude that is
identically zero and a width estimate that is identically zero; the final
division is guarded, so no divide-by-zero occurs. -/
theorem C5_amended_zero_image (m : ℚ) (n : ℤ) (_hm : 0 < m) (hn : 1 ≤ n)
    (A : NDArray) (R C : ℕ) (hd : A.dims = [R, C]) (hz : ∀ i, A.val i = 0)
    (hsafe : ResizeSafe R C (mkSingularityIndexFilters m n).nrScales.toNat) :
    ∃ psi w o, applyMMSI A (mkSingularityIndexFilters m n) = .ok (psi, w, o) ∧
      ∀ r c, psi.pix r c = 0 ∧ w.pix r c = 0 := by
  have hz0 : ZeroPix (⟨R, C, fun r c => (normalizeInput A).val [r, c]⟩ : Mat) :=
    fun r c => normalizeInput_val_zero hz _
  have hns : 1 ≤ (mkSingularityIndexFilters m n).nrScales.toNat := by
    have he : (mkSingularityIndexFilters m n).nrScales = n := rfl
    omega
  obtain ⟨a, hrl, h1c, h2c, hwidth, hpsi, -⟩ :=
    runLoop_spec (mkSingularityIndexFilters m n) R C
      ⟨R, C, fun r c => (normalizeInput A).val [r, c]⟩ _ hns hsafe
  rw [applyMMSI_two_dim A (mkSingularityIndexFilters m n) R C hd, hrl]
  refine ⟨_, _, _, rfl, ?_⟩
  intro r c
  have hzs : ∀ s, (psiScaleAt (mkSingularityIndexFilters m n) R C
      ⟨R, C, fun r c => (normalizeInput A).val [r, c]⟩ s).pix r c = 0 :=
    fun s => zeroPix_psiScaleAt (mkSingularityIndexFilters m n) hz0 R C s r c
  have hS : a.psi_sum.pix r c = 0 := by
    rcases Nat.lt_or_ge (mkSingularityIndexFilters m n).nrScales.toNat 2
      with h1 | h2
    · have h1' : (mkSingularityIndexFilters m n).nrScales.toNat = 1 := by omega
      rw [((h1c h1').2 r c).2, hzs 0]
    · rw [((h2c h2).2) r c, hzs 0, hzs 1]
      simp [Finset.sum_eq_zero fun s _ => hzs s]
  have hW : a.widthMap.pix r c = 0 := by
    rw [hwidth r c]
    refine Finset.sum_eq_zero fun s _ => ?_
    rw [hzs s, mul_zero]
  have hP : a.psi.pix r c = 0 := by
    rw [hpsi r c]
    refine Finset.sum_eq_zero fun s _ => ?_
    rw [hzs s]
    ring
  constructor
  · show Real.sqrt (a.psi.pix r c) = 0
    rw [hP, Real.sqrt_zero]
  · show (if 0 < a.psi_sum.pix r c then
        a.widthMap.pix r c / a.psi_sum.pix r c else a.widthMap.pix r c) = 0
    rw [hS, hW]
    simp

theorem C5_witness :
    (0 : ℚ) < 3 / 2 ∧ (1 : ℤ) ≤ 1 ∧
    ∃ psi w o, applyMMSI ⟨Dtype.float64, [1, 1], fun _ => 0⟩
        (mkSingularityIndexFilters (3 / 2) 1) = .ok (psi, w, o) ∧
      ∀ r c, psi.pix r c = 0 ∧ w.pix r c = 0 :=
  ⟨by norm_num, by decide,
    C5_amended_zero_image (3 / 2) 1 (by norm_num) (by decide)
      ⟨Dtype.float64, [1, 1], fun _ => 0⟩ 1 1 rfl (fun _ => rfl)
      (fun s hs hlt => absurd (show s < 1 from hlt) (by omega))⟩

/-- C6: when the scale loop completes, the finalization of `applyMMSI`
divides the accumulated width map by the program's accumulated response sum
`psi_sum` only at pixels where that sum is positive (division by zero is
unreachable); wherever `psi_sum ≤ 0` the returned width map keeps its
accumulated value — the width accumulator, which (unlike `psi_sum`) is a
clean unconditional sum over scales — unchanged. -/
theorem C6_width_division_guard (filters : SingularityIndexFilters)
    (A : NDArray) (R C : ℕ) (hd : A.dims = [R, C])
    (hn : 1 ≤ filters.nrScales)
    (hsafe : ResizeSafe R C filters.nrScales.toNat) :
    ∃ psi w o a, applyMMSI A filters = .ok (psi, w, o) ∧
      runLoop filters R C ⟨R, C, fun r c => (normalizeInput A).val [r, c]⟩
          filters.nrScales.toNat =
        .ok (imgAt R C ⟨R, C, fun r c => (normalizeInput A).val [r, c]⟩
          (filters.nrScales.toNat - 1), some a) ∧
      ∀ r c,
        (0 < a.psi_sum.pix r c →
          w.pix r c = a.widthMap.pix r c / a.psi_sum.pix r c) ∧
        (a.psi_sum.pix r c ≤ 0 → w.pix r c = a.widthMap.pix r c) ∧
        a.widthMap.pix r c =
          ∑ s ∈ Finset.range filters.nrScales.toNat,
            (filters.minScale : ℝ) * Real.sqrt 2 ^ s *
              (psiScaleAt filters R C
                ⟨R, C, fun r c => (normalizeInput A).val [r, c]⟩ s).pix r c := by
  have hns : 1 ≤ filters.nrScales.toNat := by omega
  obtain ⟨a, hrl, -, -, hwidth, -, -⟩ :=
    runLoop_spec filters R C
      ⟨R, C, fun r c => (normalizeInput A).val [r, c]⟩ _ hns hsafe
  rw [applyMMSI_two_dim A filters R C hd, hrl]
  refine ⟨_, _, _, a, rfl, rfl, ?_⟩
  intro r c
  refine ⟨fun hpos => ?_, fun hle => ?_, hwidth r c⟩
  · show (if 0 < a.psi_sum.pix r c then
        a.widthMap.pix r c / a.psi_sum.pix r c else a.widthMap.pix r c) = _
    rw [if_pos hpos]
  · show (if 0 < a.psi_sum.pix r c then
        a.widthMap.pix r c / a.psi_sum.pix r c else a.widthMap.pix r c) = _
    rw [if_neg (not_lt.mpr hle)]

theorem C6_witness :
    ∃ psi w o, applyMMSI ⟨Dtype.float64, [1, 1], fun _ => 0⟩
      (mkSingularityIndexFilters (3 / 2) 1) = .ok (psi, w, o) := by
  obtain ⟨psi, w, o, a, hok, -⟩ :=
    C6_width_division_guard (mkSingularityIndexFilters (3 / 2) 1)
      ⟨Dtype.float64, [1, 1], fun _ => 0⟩ 1 1 rfl (by decide)
      (fun s hs hlt => absurd (show s < 1 from hlt) (by omega))
  exact ⟨psi, w, o, hok⟩

/-- C7 counterexample: the claim covers every valid 2-D input and filter
bank, but a 1x1 input with `nrScales = 2` makes the scale-1 downscale target
`int(1/sqrt(2)) = 0`, so `cv2.resize` raises `cv2.error` and no orientation
map is returned at all. -/
theorem C7_counterexample :
    applyMMSI ⟨Dtype.float64, [1, 1], fun _ => 5⟩
      (mkSingularityIndexFilters (3 / 2) 2) = .error .cvError := by
  rw [applyMMSI_two_dim ⟨Dtype.float64, [1, 1], fun _ => 5⟩
    (mkSingularityIndexFilters (3 / 2) 2) 1 1 rfl]
  have e2 : runLoop (mkSingularityIndexFilters (3 / 2) 2) 1 1
      ⟨1, 1, fun r c =>
        (normalizeInput ⟨Dtype.float64, [1, 1], fun _ => 5⟩).val [r, c]⟩
      (mkSingularityIndexFilters (3 / 2) 2).nrScales.toNat =
      (loopBody (mkSingularityIndexFilters (3 / 2) 2) 1 1
        (⟨1, 1, fun r c =>
          (normalizeInput ⟨Dtype.float64, [1, 1], fun _ => 5⟩).val [r, c]⟩,
          none) 0 >>=
        fun p => loopBody (mkSingularityIndexFilters (3 / 2) 2) 1 1 p 1) := rfl
  rw [e2, loopBody_at_zero, ok_bind,
    loopBody_resize_error (mkSingularityIndexFilters (3 / 2) 2) 1 1 _ 1
      (by omega) (Or.inl dsizeW_one_one)]

/-- C7 (amended): for every 2-D input and a filter bank with at least one
scale whose downscale targets stay positive at every scale (otherwise
`cv2.resize` raises and no maps are returned), `applyMMSI` returns, and every
pixel of the returned orientation map lies in `(-π/2, π/2]`: each per-scale
angle is `arctan2(Nr, Dr)/2`, and winner-take-all copying plus
nearest-neighbor upsampling only move existing angle values. -/
theorem C7_amended_orientation_range (filters : SingularityIndexFilters)
    (A : NDArray) (R C : ℕ) (hd : A.dims = [R, C])
    (hn : 1 ≤ filters.nrScales)
    (hsafe : ResizeSafe R C filters.nrScales.toNat) :
    ∃ psi w o, applyMMSI A filters = .ok (psi, w, o) ∧
      ∀ r c, -(Real.pi / 2) < o.pix r c ∧ o.pix r c ≤ Real.pi / 2 := by
  have hns : 1 ≤ filters.nrScales.toNat := by omega
  obtain ⟨a, hrl, -, -, -, -, horient⟩ :=
    runLoop_spec filters R C
      ⟨R, C, fun r c => (normalizeInput A).val [r, c]⟩ _ hns hsafe
  rw [applyMMSI_two_dim A filters R C hd, hrl]
  refine ⟨_, _, _, rfl, ?_⟩
  intro r c
  obtain ⟨s, r', c', -, he⟩ := horient r c
  rw [he]
  exact anglesAt_mem filters R C _ s r' c'

theorem C7_witness :
    ∃ psi w o, applyMMSI ⟨Dtype.float64, [1, 1], fun _ => 0⟩
        (mkSingularityIndexFilters (3 / 2) 1) = .ok (psi, w, o) ∧
      ∀ r c, -(Real.pi / 2) < o.pix r c ∧ o.pix r c ≤ Real.pi / 2 :=
  C7_amended_orientation_range (mkSingularityIndexFilters (3 / 2) 1)
    ⟨Dtype.float64, [1, 1], fun _ => 0⟩ 1 1 rfl (by decide)
    (fun s hs hlt => absurd (show s < 1 from hlt) (by omega))

/-- C8: `applyMMSI` rescales `uint8` input by `1/255` and `uint16` input by
`1/65535` before any filtering; hence an 8-bit image and a 16-bit image that
represent the same normalized image produce exactly the same three output
maps, each equal to the result on the pre-normalized floating-point image
(exact equality in the real-valued model). -/
theorem C8_dtype_rescaling (filters : SingularityIndexFilters)
    (U8 U16 F : NDArray)
    (h8 : U8.dtype = Dtype.uint8) (h16 : U16.dtype = Dtype.uint16)
    (hF : F.dtype = Dtype.float64)
    (hd8 : U8.dims = F.dims) (hd16 : U16.dims = F.dims)
    (hv8 : ∀ i, U8.val i / 255 = F.val i)
    (hv16 : ∀ i, U16.val i / 65535 = F.val i) :
    applyMMSI U8 filters = applyMMSI F filters ∧
    applyMMSI U16 filters = applyMMSI F filters := by
  have hn8 : normalizeInput U8 = F := by
    have h1 : normalizeInput U8 =
        ⟨Dtype.float64, U8.dims, fun i => U8.val i / 255⟩ := by
      unfold normalizeInput
      rw [h8]
      simp
    rw [h1, show F = ⟨F.dtype, F.dims, F.val⟩ from rfl, hF, hd8]
    exact congrArg _ (funext hv8)
  have hn16 : normalizeInput U16 = F := by
    have h1 : normalizeInput U16 =
        ⟨Dtype.float64, U16.dims, fun i => U16.val i / 65535⟩ := by
      unfold normalizeInput
      rw [h16]
      simp
    rw [h1, show F = ⟨F.dtype, F.dims, F.val⟩ from rfl, hF, hd16]
    exact congrArg _ (funext hv16)
  have hnF : normalizeInput F = F := by
    unfold normalizeInput
    rw [hF]
    simp
  rw [applyMMSI, applyMMSI, applyMMSI, hn8, hn16, hnF]
  exact ⟨rfl, rfl⟩

theorem C8_witness :
    applyMMSI ⟨Dtype.uint8, [1, 1], fun _ => 0⟩
        (mkSingularityIndexFilters (3 / 2) 15) =
      applyMMSI ⟨Dtype.float64, [1, 1], fun _ => 0⟩
        (mkSingularityIndexFilters (3 / 2) 15) ∧
    applyMMSI ⟨Dtype.uint16, [1, 1], fun _ => 0⟩
        (mkSingularityIndexFilters (3 / 2) 15) =
      applyMMSI ⟨Dtype.float64, [1, 1], fun _ => 0⟩
        (mkSingularityIndexFilters (3 / 2) 15) :=
  C8_dtype_rescaling (mkSingularityIndexFilters (3 / 2) 15) _ _ _
    rfl rfl rfl rfl rfl (fun i => by norm_num) (fun i => by norm_num)

/-- C9: every kernel of the filter bank is a deterministic function of
`minScale` alone: two banks built with the same `minScale` and any two values
of `nrScales` have identical debias, base Gaussian, second-derivative and
first-derivative kernels. -/
theorem C9_kernels_depend_only_on_minScale (m : ℚ) (n1 n2 : ℤ) :
    (mkSingularityIndexFilters m n1).Gdebias =
      (mkSingularityIndexFilters m n2).Gdebias ∧
    (mkSingularityIndexFilters m n1).G01d =
      (mkSingularityIndexFilters m n2).G01d ∧
    (mkSingularityIndexFilters m n1).G20 =
      (mkSingularityIndexFilters m n2).G20 ∧
    (mkSingularityIndexFilters m n1).G260 =
      (mkSingularityIndexFilters m n2).G260 ∧
    (mkSingularityIndexFilters m n1).G2120 =
      (mkSingularityIndexFilters m n2).G2120 ∧
    (mkSingularityIndexFilters m n1).G0_a =
      (mkSingularityIndexFilters m n2).G0_a ∧
    (mkSingularityIndexFilters m n1).G1 =
      (mkSingularityIndexFilters m n2).G1 :=
  ⟨rfl, rfl, rfl, rfl, rfl, rfl, rfl⟩

/-- C10: calling `applyMMSI` on a 2-D input with a filter bank whose
`nrScales` is zero or negative (which construction accepts) runs the scale
loop zero times, so the aggregation variables are never assigned and
finalization fails with the unbound-local error — no defined result and no
parameter-validation error. -/
theorem C10_nonpositive_nrScales_name_error (A : NDArray)
    (filters : SingularityIndexFilters) (R C : ℕ)
    (hd : A.dims = [R, C]) (hn : filters.nrScales ≤ 0) :
    applyMMSI A filters = .error .nameError := by
  rw [applyMMSI_two_dim A filters R C hd,
    show filters.nrScales.toNat = 0 by omega, runLoop_zero]

theorem C10_witness :
    applyMMSI ⟨Dtype.float64, [1, 1], fun _ => 0⟩
      (mkSingularityIndexFilters (3 / 2) 0) = .error .nameError :=
  C10_nonpositive_nrScales_name_error ⟨Dtype.float64, [1, 1], fun _ => 0⟩
    (mkSingularityIndexFilters (3 / 2) 0) 1 1 rfl (by decide)
